import Mathlib

/-!
Verification development for the ReactorAsterix ASTERIX decoder.

The definitions below are a shallow embedding of the C++ sources:
machine integers (`uint8_t`, `uint16_t`, `uint32_t`, `size_t`) are
modelled as `Nat`; byte buffers (`std::string_view`) as `List Nat`;
the atomic diagnostic counters as a plain record threaded through the
functions.  Comments on each definition name the C++ function it embeds.
-/

namespace ReactorAsterix

/-! ### Constants (include/ReactorAsterix/core/AsterixConstants.h) -/

def HEADER_SIZE : Nat := 3
def MIN_BLOCK_SIZE : Nat := 5
def MAX_FSPEC_SIZE : Nat := 10

/-! ### Time reconciler (Asterix1Handler::expandTruncatedTime,
src/cat001/Asterix1DataItemCollection.cc lines 316-356) -/

/-- `maxTOD = 86400 * 128`, the number of 1/128 s units in a day. -/
def maxTOD : Nat := 86400 * 128

/-- `kMspMask = 0xFFFF0000`. -/
def kMspMask : Nat := 0xFFFF0000

/-- `kWindow = 0x00010000`. -/
def kWindow : Nat := 0x00010000

/-- `kTopMsp = (maxTOD - 1) & kMspMask`. -/
def kTopMsp : Nat := (maxTOD - 1) &&& kMspMask

/-- `HALF_DAY = maxTOD / 2`. -/
def HALF_DAY : Nat := maxTOD / 2

/-- The local lambda `getDist` of `expandTruncatedTime`: distance of a
candidate `T` from the reference, with candidates at or above `maxTOD`
given the sentinel distance `maxTOD`.  All subtractions appearing here
stay within `uint32` range for the reference values `refTOD < maxTOD`
used by the callers, so no `% 2^32` wrap is needed. -/
def getDist (refTOD T : Nat) : Nat :=
  if T ≥ maxTOD then maxTOD
  else
    let d := if T > refTOD then T - refTOD else refTOD - T
    if d > HALF_DAY then maxTOD - d else d

/-- `Asterix1Handler::expandTruncatedTime`.  Candidate A keeps the
reference MSP window, candidate B crosses the lower window boundary,
candidate C crosses the upper one; the candidate with the smallest
`getDist` wins, ties broken in favour of A, then B (the source only
replaces the running best on a strictly smaller distance).
`todA - kWindow` cannot underflow: it is only taken when
`refMSP > 0`, i.e. `refMSP ≥ kWindow`. -/
def expandTruncatedTime (todLSP refTOD : Nat) : Nat :=
  let refMSP := refTOD &&& kMspMask
  let lsp := todLSP
  let todA := refMSP ||| lsp
  let todB := if refMSP > 0 then todA - kWindow else kTopMsp ||| lsp
  let todC := if refMSP < kTopMsp then todA + kWindow else lsp
  let dA := getDist refTOD todA
  let dB := getDist refTOD todB
  let dC := getDist refTOD todC
  if dB < dA then (if dC < dB then todC else todB)
  else (if dC < dA then todC else todA)

/-! Spec-side definitions for the time reconciler, following the
wording of spec.md §4.4: circular distance on `[0, maxTOD)`, candidates
at or above `maxTOD` rejected with distance `maxTOD`, ties to A then B. -/

/-- Modelled from the spec: `circular_distance` on `[0, maxTOD)`. -/
def circularDistanceSpec (x y : Nat) : Nat :=
  let d := if x > y then x - y else y - x
  min d (maxTOD - d)

/-- Modelled from the spec: the distance used to rank candidates —
circular distance, with candidates `≥ maxTOD` given distance `maxTOD`. -/
def candDistSpec (ref T : Nat) : Nat :=
  if T ≥ maxTOD then maxTOD else circularDistanceSpec T ref

/-- Modelled from the spec: return the candidate among A, B, C closest
to `ref`; ties break to A first, then B. -/
def closestCandidateSpec (ref A B C : Nat) : Nat :=
  let dA := candDistSpec ref A
  let dB := candDistSpec ref B
  let dC := candDistSpec ref C
  if dA ≤ dB ∧ dA ≤ dC then A
  else if dB ≤ dC then B
  else C

/-- Modelled from the spec: the §4.4 algorithm — candidates A, B, C as
described there, then the closest-candidate selection. -/
def expandTruncatedTimeSpec (lsp ref : Nat) : Nat :=
  let refMSP := ref &&& kMspMask
  let A := refMSP ||| lsp
  let B := if refMSP > 0 then A - kWindow else kTopMsp ||| lsp
  let C := if refMSP < kTopMsp then A + kWindow else lsp
  closestCandidateSpec ref A B C

/-- The code's capped distance agrees with the spec's capped circular
distance on every pair of naturals. -/
lemma getDist_eq_candDistSpec (ref T : Nat) :
    getDist ref T = candDistSpec ref T := by
  simp only [getDist, candDistSpec, circularDistanceSpec, HALF_DAY, maxTOD]
  split
  · rfl
  · split <;> split <;> omega

/-! ### Bridging the bitwise operations to arithmetic -/

/-- For a value split as `65536 * q + r` with byte-halves in range, the
mask `0xFFFF0000` keeps exactly the upper half. -/
lemma and_high_mask (q r : Nat) (hq : q < 2 ^ 16) (hr : r < 2 ^ 16) :
    (2 ^ 16 * q + r) &&& 0xFFFF0000 = 2 ^ 16 * q := by
  have hm : (0xFFFF0000 : Nat) = 2 ^ 16 * 0xFFFF := by norm_num
  rw [Nat.mul_add_lt_is_or hr, hm]
  apply Nat.eq_of_testBit_eq
  intro i
  simp only [Nat.testBit_and, Nat.testBit_or, Nat.testBit_mul_pow_two]
  rcases Nat.lt_or_ge i 16 with hi | hi
  · have hd : ¬ (i ≥ 16) := by omega
    simp [hd]
  · have hrf : r.testBit i = false :=
      Nat.testBit_eq_false_of_lt (Nat.lt_of_lt_of_le hr
        (Nat.pow_le_pow_right (by norm_num) hi))
    have hdec : decide (i ≥ 16) = true := decide_eq_true hi
    simp only [hdec, Bool.true_and, hrf, Bool.or_false]
    rcases hqb : q.testBit (i - 16) with _ | _
    · simp
    · have hlt : i - 16 < 16 := by
        by_contra hc
        have : 2 ^ 16 ≤ q := by
          calc 2 ^ 16 ≤ 2 ^ (i - 16) := Nat.pow_le_pow_right (by norm_num) (by omega)
          _ ≤ q := Nat.testBit_implies_ge hqb
        omega
      have hmb : Nat.testBit 0xFFFF (i - 16) = true := by
        have h0 : (0xFFFF : Nat) = 2 ^ 16 - 1 := by norm_num
        rw [h0, Nat.testBit_two_pow_sub_one]
        simp [hlt]
      simp [hmb]

/-- Rewriting `ref & kMspMask` for a 32-bit `ref`. -/
lemma and_kMspMask_eq (ref : Nat) (h : ref < 2 ^ 32) :
    ref &&& kMspMask = 2 ^ 16 * (ref / 2 ^ 16) := by
  have hd : ref = 2 ^ 16 * (ref / 2 ^ 16) + ref % 2 ^ 16 := by omega
  have hq : ref / 2 ^ 16 < 2 ^ 16 := Nat.div_lt_of_lt_mul (by omega)
  have hr : ref % 2 ^ 16 < 2 ^ 16 := Nat.mod_lt _ (Nat.two_pow_pos 16)
  calc ref &&& kMspMask
      = (2 ^ 16 * (ref / 2 ^ 16) + ref % 2 ^ 16) &&& 0xFFFF0000 := by
        rw [← hd]; rfl
    _ = 2 ^ 16 * (ref / 2 ^ 16) := and_high_mask _ _ hq hr

/-- A multiple of `2^16` or-ed with a 16-bit value is their sum. -/
lemma or_low_eq_add (q lsp : Nat) (h : lsp < 2 ^ 16) :
    2 ^ 16 * q ||| lsp = 2 ^ 16 * q + lsp :=
  (Nat.mul_add_lt_is_or h q).symm

/-- `kTopMsp` evaluates to `168 * 2^16`. -/
lemma kTopMsp_eq : kTopMsp = 2 ^ 16 * 168 := by decide

/-- Selecting the final 16 bits with the mask `0xFFFF` is `% 2^16`. -/
lemma and_low_mask_eq_mod (x : Nat) : x &&& 0xFFFF = x % 2 ^ 16 := by
  have h0 : (0xFFFF : Nat) = 2 ^ 16 - 1 := by norm_num
  rw [h0, Nat.and_pow_two_sub_one_eq_mod]

/-! ### Arithmetic form of the candidates and of the reconciler -/

/-- Candidate A in arithmetic form: `(ref & kMspMask) | lsp`. -/
def candA (lsp ref : Nat) : Nat := 2 ^ 16 * (ref / 2 ^ 16) + lsp

/-- Candidate B in arithmetic form. -/
def candB (lsp ref : Nat) : Nat :=
  if 2 ^ 16 * (ref / 2 ^ 16) > 0 then candA lsp ref - kWindow else 2 ^ 16 * 168 + lsp

/-- Candidate C in arithmetic form. -/
def candC (lsp ref : Nat) : Nat :=
  if 2 ^ 16 * (ref / 2 ^ 16) < 2 ^ 16 * 168 then candA lsp ref + kWindow else lsp

/-- `expandTruncatedTime` with the bitwise operations replaced by their
arithmetic readings (valid for 16-bit `lsp` and 32-bit `ref`). -/
def expandArith (lsp ref : Nat) : Nat :=
  let dA := getDist ref (candA lsp ref)
  let dB := getDist ref (candB lsp ref)
  let dC := getDist ref (candC lsp ref)
  if dB < dA then (if dC < dB then candC lsp ref else candB lsp ref)
  else (if dC < dA then candC lsp ref else candA lsp ref)

lemma expand_eq_arith (lsp ref : Nat) (hl : lsp < 2 ^ 16) (href : ref < 2 ^ 32) :
    expandTruncatedTime lsp ref = expandArith lsp ref := by
  simp only [expandTruncatedTime, expandArith, candA, candB, candC,
    and_kMspMask_eq ref href, kTopMsp_eq, or_low_eq_add _ _ hl]

lemma getDist_le_halfday {ref T : Nat} (hr : ref < maxTOD) (hT : T < maxTOD) :
    getDist ref T ≤ HALF_DAY := by
  simp only [getDist, maxTOD, HALF_DAY] at *
  split_ifs <;> omega

lemma lt_maxTOD_of_getDist_le {ref T : Nat} (h : getDist ref T ≤ HALF_DAY) :
    T < maxTOD := by
  by_contra hc
  have : getDist ref T = maxTOD := by
    simp only [getDist]
    split
    · rfl
    · omega
  simp only [this, maxTOD, HALF_DAY] at h
  omega

lemma expandArith_mem (lsp ref : Nat) :
    expandArith lsp ref = candA lsp ref ∨ expandArith lsp ref = candB lsp ref ∨
      expandArith lsp ref = candC lsp ref := by
  simp only [expandArith]
  split_ifs <;> tauto

lemma expandArith_dist_le (lsp ref : Nat) :
    getDist ref (expandArith lsp ref) ≤ getDist ref (candB lsp ref) ∧
      getDist ref (expandArith lsp ref) ≤ getDist ref (candC lsp ref) := by
  simp only [expandArith]
  split_ifs <;> constructor <;> omega

/-- For any in-range reference at least one of candidates B, C lies
below `maxTOD`, hence has a small distance. -/
lemma good_cand (lsp ref : Nat) (hl : lsp < 2 ^ 16) (hr : ref < maxTOD) :
    getDist ref (candB lsp ref) ≤ HALF_DAY ∨
      getDist ref (candC lsp ref) ≤ HALF_DAY := by
  rcases Nat.eq_zero_or_pos (ref / 2 ^ 16) with hq | hq
  · right
    apply getDist_le_halfday hr
    simp only [candC, candA, hq, maxTOD, kWindow] at *
    split <;> omega
  · left
    apply getDist_le_halfday hr
    have h168 : ref / 2 ^ 16 ≤ 168 := by
      simp only [maxTOD] at hr
      omega
    simp only [candB, candA, maxTOD, kWindow] at *
    split
    · omega
    · omega

lemma circ_le_halfday (x y : Nat) (hx : x < maxTOD) (hy : y < maxTOD) :
    circularDistanceSpec x y ≤ HALF_DAY := by
  simp only [circularDistanceSpec, maxTOD, HALF_DAY] at *
  split_ifs <;> omega

/-- C1.  For every 16-bit `lsp` and reference `ref ∈ [0, maxTOD)`, the
expansion `T = expandTruncatedTime lsp ref` satisfies `T ∈ [0, maxTOD)`,
`T & 0xFFFF = lsp`, and the circular distance between `T` and `ref` on
`[0, maxTOD)` is at most `HALF_DAY`. -/
theorem expandTruncatedTime_correct (lsp ref : Nat)
    (hl : lsp < 2 ^ 16) (hr : ref < maxTOD) :
    expandTruncatedTime lsp ref < maxTOD ∧
    expandTruncatedTime lsp ref &&& 0xFFFF = lsp ∧
    circularDistanceSpec (expandTruncatedTime lsp ref) ref ≤ HALF_DAY := by
  have h32 : ref < 2 ^ 32 := by
    simp only [maxTOD] at hr
    omega
  rw [expand_eq_arith lsp ref hl h32]
  have hle := expandArith_dist_le lsp ref
  have hdist : getDist ref (expandArith lsp ref) ≤ HALF_DAY := by
    rcases good_cand lsp ref hl hr with h | h
    · exact le_trans hle.1 h
    · exact le_trans hle.2 h
  have hlt : expandArith lsp ref < maxTOD := lt_maxTOD_of_getDist_le hdist
  refine ⟨hlt, ?_, circ_le_halfday _ _ hlt hr⟩
  rw [and_low_mask_eq_mod]
  rcases expandArith_mem lsp ref with h | h | h <;> rw [h] <;>
    simp only [candA, candB, candC, kWindow] <;> [skip; split; split] <;> omega

/-- Witness for C1 at `lsp = 0x5678`, `ref = 0x00123456`. -/
theorem expandTruncatedTime_correct_witness :
    (0x5678 : Nat) < 2 ^ 16 ∧ (0x00123456 : Nat) < maxTOD ∧
    (expandTruncatedTime 0x5678 0x00123456 < maxTOD ∧
     expandTruncatedTime 0x5678 0x00123456 &&& 0xFFFF = 0x5678 ∧
     circularDistanceSpec (expandTruncatedTime 0x5678 0x00123456) 0x00123456 ≤
       HALF_DAY) :=
  ⟨by decide, by decide,
    expandTruncatedTime_correct 0x5678 0x00123456 (by decide) (by decide)⟩

set_option maxRecDepth 4096 in
/-- C2.  `expandTruncatedTime` returns, among candidates A, B and C, the
one closest to the reference by capped circular distance, with ties
broken to A first and then B; in particular the spec's worked example
`ref = 0x00123456`, `lsp = 0x5678` expands to `0x00125678`. -/
theorem expandTruncatedTime_is_closestCandidate :
    (∀ lsp ref : Nat,
      expandTruncatedTime lsp ref = expandTruncatedTimeSpec lsp ref) ∧
    expandTruncatedTime 0x5678 0x00123456 = 0x00125678 := by
  constructor
  · intro lsp ref
    simp only [expandTruncatedTime, expandTruncatedTimeSpec, closestCandidateSpec,
      getDist_eq_candDistSpec]
    split_ifs <;> omega
  · rfl

/-! ### Diagnostics (include/ReactorAsterix/core/AsterixDiagnostics.h)

`AsterixStats` holds relaxed atomic `uint64_t` counters in the source;
here it is a plain record threaded through the functions.  The source
guards each increment with `if (stats_ptr)`; the packet handler always
links the stats object into every registered handler, so the model
takes the stats as always present. -/

structure AsterixStats where
  totalPackets : Nat := 0
  trailingBytesCount : Nat := 0
  unhandledCategories : Nat := 0
  malformedBlocks : Nat := 0
  malformedRecords : Nat := 0
  recordParseErrors : Nat := 0
  protocolViolations : Nat := 0
  unhandledItems : Nat := 0
deriving Repr, DecidableEq

/-! ### Data item handlers (IAsterixDataItemHandler)

For the record-walk claims only the size discipline and the mandatory
flag of a handler matter; the decode calls are recorded as
(FRN, consumed bytes) events instead of writes into a typed report. -/

structure ItemHandler where
  getSize : List Nat → Nat
  mandatory : Bool

/-- `AsterixDataItemHandlerFixedLength::getSize`: the constant length,
ignoring the buffer content. -/
def getSizeFixed (fixedSize : Nat) (_data : List Nat) : Nat := fixedSize

/-- The scanning loop of `AsterixDataItemHandlerExtendedLength::getSize`:
`while (currentPos < data.size())` advance by `i` while the FX bit of the
byte at `currentPos` is set.  The loop is embedded with explicit fuel;
`data.length + 1` units suffice for every increment `i ≥ 1`, which is the
only case in which the C++ loop terminates at all. -/
def extScan (data : List Nat) (i : Nat) : Nat → Nat → Nat
  | 0, currentPos => currentPos
  | fuel + 1, currentPos =>
    if currentPos < data.length then
      if (data.getD currentPos 0) &&& 0x01 = 0 then currentPos
      else extScan data i fuel (currentPos + i)
    else currentPos

/-- `AsterixDataItemHandlerExtendedLength::getSize` (src/unnamed/part_004):
scan from `k - 1` in steps of `i` for the first byte with FX clear;
`0` when the data runs out first. -/
def getSizeExtended (k i : Nat) (data : List Nat) : Nat :=
  let currentPos := extScan data i (data.length + 1) (k - 1)
  let totalSize := currentPos + 1
  if totalSize ≤ data.length then totalSize else 0

/-! ### Category handler (AsterixCategoryHandler<T>) -/

structure CategoryModel where
  /-- `itemLookup[frn - 1]`: the dense FRN-indexed slot array. -/
  itemLookup : Nat → Option ItemHandler
  /-- `mandatoryFspec`: the 20-byte precomputed mandatory mask. -/
  mandatoryFspec : List Nat
  /-- `mandatoryFspecSize`: highest mask byte index used + 1. -/
  mandatoryFspecSize : Nat

/-- Index (7 = bit 7 … 0 = bit 0) of the highest set bit of a byte;
`__builtin_clz(itemBits << 24)` in the source is `7 - highBitIdx itemBits`
for a non-zero byte. -/
def highBitIdx (b : Nat) : Nat :=
  if b ≥ 128 then 7 else if b ≥ 64 then 6 else if b ≥ 32 then 5
  else if b ≥ 16 then 4 else if b ≥ 8 then 3 else if b ≥ 4 then 2
  else if b ≥ 2 then 1 else 0

set_option maxRecDepth 8192 in
/-- Sanity check for the bit-clearing translation: on a byte, clearing
the highest set bit with the source's mask `~(0x80 >> offset)` is
truncation below that bit. -/
lemma highBitIdx_clear_eq :
    ∀ b : Fin 256, 2 ≤ b.val →
      b.val &&& ((128 >>> (7 - highBitIdx b.val)) ^^^ 255) =
        b.val % 2 ^ highBitIdx b.val := by decide

/-- State threaded through the FSPEC walk of
`AsterixCategoryHandler::_processDataRecordInternal`: `ok` is false once
one of the `abortWithStat` early returns fired; `decoded` records the
`handler->decode` calls as (FRN, decoded bytes) events. -/
structure ItemsState where
  ok : Bool
  remaining : List Nat
  stats : AsterixStats
  decoded : List (Nat × List Nat)

/-- The inner `while (itemBits)` loop of `_processDataRecordInternal`:
process the set data bits of one FSPEC byte from the highest down.  The
loop runs once per set bit; a byte stripped of its FX bit has at most 7
of them, so the fuel of 8 supplied by the caller never runs out
(`itemBits ≤ 0xFE` always, because it is masked with `0xFE`).
`itemBits % 2 ^ highBitIdx itemBits` is the source's
`itemBits &= ~(0x80 >> offset)` (see `highBitIdx_clear_eq`). -/
def processItemBits (cat : CategoryModel) (frnBase : Nat) :
    Nat → Nat → ItemsState → ItemsState
  | 0, _, s => s
  | fuel + 1, itemBits, s =>
    if itemBits = 0 then s
    else
      let offset := 7 - highBitIdx itemBits
      let currentFrn := frnBase + offset
      match cat.itemLookup (currentFrn - 1) with
      | none =>
        { s with
          ok := false
          stats := { s.stats with unhandledItems := s.stats.unhandledItems + 1 } }
      | some handler =>
        let itemSize := handler.getSize s.remaining
        if itemSize = 0 ∨ itemSize > s.remaining.length then
          { s with
            ok := false
            stats := { s.stats with
              malformedRecords := s.stats.malformedRecords + 1 } }
        else
          processItemBits cat frnBase fuel (itemBits % 2 ^ highBitIdx itemBits)
            { ok := s.ok
              remaining := s.remaining.drop itemSize
              stats := s.stats
              decoded := s.decoded ++ [(currentFrn, s.remaining.take itemSize)] }

/-- The `for (const char c : fspec)` loop of
`_processDataRecordInternal`.  Returns the consumed byte count (0 on
failure) and the final walk state; falling off the end of the FSPEC with
FX still set is a malformed record. -/
def walkFspec (cat : CategoryModel) (payloadLen : Nat) :
    List Nat → Nat → ItemsState → Nat × ItemsState
  | [], _, s =>
    (0, { s with
      stats := { s.stats with malformedRecords := s.stats.malformedRecords + 1 } })
  | b :: rest, frnBase, s =>
    let itemBits := b &&& 0xFE
    let s1 := processItemBits cat frnBase 8 itemBits s
    if s1.ok = false then (0, s1)
    else if b &&& 0x01 = 0 then (payloadLen - s1.remaining.length, s1)
    else walkFspec cat payloadLen rest (frnBase + 7) s1

/-- The second validation loop of `_processDataRecordInternal`:
`mandatoryFspec[i] & ~fspec[i]` non-zero for some `i < mandatoryFspecSize`
(`~` of a byte value is `xor 255`). -/
def mandViolation (cat : CategoryModel) (fspec : List Nat) : Bool :=
  (List.range cat.mandatoryFspecSize).any
    (fun i => (cat.mandatoryFspec.getD i 0 &&& (fspec.getD i 0 ^^^ 255)) != 0)

/-- Result of `_processDataRecordInternal`: consumed payload bytes
(0 on failure), final stats, the unconsumed payload suffix, and the
decode events. -/
structure RecordResult where
  consumed : Nat
  stats : AsterixStats
  remaining : List Nat
  decoded : List (Nat × List Nat)

/-- `AsterixCategoryHandler::_processDataRecordInternal`
(include/ReactorAsterix/core/AsterixCategoryHandler.h lines 158-238). -/
def processDataRecordInternal (cat : CategoryModel) (fspec payload : List Nat)
    (stats : AsterixStats) : RecordResult :=
  if fspec.length < cat.mandatoryFspecSize then
    ⟨0, { stats with protocolViolations := stats.protocolViolations + 1 },
      payload, []⟩
  else if mandViolation cat fspec then
    ⟨0, { stats with protocolViolations := stats.protocolViolations + 1 },
      payload, []⟩
  else
    let r := walkFspec cat payload.length fspec 1 ⟨true, payload, stats, []⟩
    ⟨r.1, r.2.stats, r.2.remaining, r.2.decoded⟩

/-! ### Packet dispatcher (src/core/AsterixPacketHandler.cc) -/

/-- The FSPEC-measuring `while (true)` loop of
`AsterixPacketHandler::dispatchRecord`.  The fuel encodes the
`fspecSize >= MAX_FSPEC_SIZE` guard: the loop is entered with
`fuel = MAX_FSPEC_SIZE - fspecSize`, so `fuel = 0` is exactly that
guard firing.  `none` is the `return 0` inside the loop.  The result is
`(fspecSize, lastDataIdx, lastDataValue)`. -/
def fspecScanAux (recordView : List Nat) :
    Nat → Nat → Nat → Nat → Option (Nat × Nat × Nat)
  | 0, _, _, _ => none
  | fuel + 1, fspecSize, lastDataIdx, lastDataValue =>
    if fspecSize ≥ recordView.length then none
    else
      let currentByte := recordView.getD fspecSize 0
      let lastDataIdx' := if currentByte > 1 then fspecSize else lastDataIdx
      let lastDataValue' := if currentByte > 1 then currentByte else lastDataValue
      if currentByte &&& 0x01 = 0 then
        some (fspecSize + 1, lastDataIdx', lastDataValue')
      else fspecScanAux recordView fuel (fspecSize + 1) lastDataIdx' lastDataValue'

/-- `AsterixPacketHandler::dispatchRecord`: measure the FSPEC, enforce
the MAX_FRNS bound, split the record and hand it to the category
handler.  The category wrappers (`Asterix1Handler::processDataRecord`,
`Asterix2Handler::processDataRecord`) pass the consumed count of
`_processDataRecordInternal` through unchanged, so the model calls the
internal walk directly. -/
def dispatchRecord (cat : CategoryModel) (recordView : List Nat)
    (stats : AsterixStats) : Nat × AsterixStats :=
  match fspecScanAux recordView MAX_FSPEC_SIZE 0 0 0 with
  | none => (0, stats)
  | some (fspecSize, lastDataIdx, lastDataValue) =>
    if lastDataValue > 0 ∧
        (lastDataIdx > 18 ∨ (lastDataIdx = 18 ∧ lastDataValue &&& 0x3E ≠ 0)) then
      (0, stats)
    else if fspecSize > recordView.length then (0, stats)
    else
      let fspec := recordView.take fspecSize
      let payload := recordView.drop fspecSize
      let r := processDataRecordInternal cat fspec payload stats
      if r.consumed > 0 then (fspecSize + r.consumed, r.stats) else (0, r.stats)

/-- The `while (offset < length)` record loop of
`AsterixPacketHandler::processDataBlock`.  Each successful record
consumes at least one byte, so the fuel `length` supplied by the caller
never runs out. -/
def recordLoop (cat : CategoryModel) (block : List Nat) (length : Nat) :
    Nat → Nat → AsterixStats → AsterixStats
  | 0, _, stats => stats
  | fuel + 1, offset, stats =>
    if offset ≥ length then stats
    else
      let remaining := (block.drop offset).take (length - offset)
      let r := dispatchRecord cat remaining stats
      if r.1 > 0 then recordLoop cat block length fuel (offset + r.1) r.2
      else { r.2 with recordParseErrors := r.2.recordParseErrors + 1 }

/-- `AsterixPacketHandler::processDataBlock`: header checks, category
lookup, record loop.  Returns the declared block length (0 on a bad
header) and the updated stats. -/
def processDataBlock (lookup : Nat → Option CategoryModel)
    (block : List Nat) (stats : AsterixStats) : Nat × AsterixStats :=
  if block.length < HEADER_SIZE then (0, stats)
  else
    let category := block.getD 0 0
    let length := 256 * block.getD 1 0 + block.getD 2 0
    if length < HEADER_SIZE ∨ length > block.length then (0, stats)
    else
      match lookup category with
      | some cat => (length, recordLoop cat block length length HEADER_SIZE stats)
      | none =>
        (length,
          { stats with unhandledCategories := stats.unhandledCategories + 1 })

/-- The `while (buffer.size() >= MIN_BLOCK_SIZE)` loop of
`AsterixPacketHandler::handlePacket`.  Each accepted block consumes at
least HEADER_SIZE bytes, so the fuel `data.length` supplied by
`handlePacket` never runs out.  Returns the declared lengths of the
accepted blocks, the unconsumed buffer suffix, and the stats. -/
def handleBlocksAux (lookup : Nat → Option CategoryModel) :
    Nat → List Nat → AsterixStats → List Nat × List Nat × AsterixStats
  | 0, buffer, stats => ([], buffer, stats)
  | fuel + 1, buffer, stats =>
    if buffer.length < MIN_BLOCK_SIZE then ([], buffer, stats)
    else
      let r := processDataBlock lookup buffer stats
      if r.1 > 0 then
        let rest := handleBlocksAux lookup fuel (buffer.drop r.1) r.2
        (r.1 :: rest.1, rest.2.1, rest.2.2)
      else
        ([], buffer, { r.2 with malformedBlocks := r.2.malformedBlocks + 1 })

/-- `AsterixPacketHandler::handlePacket`: empty-buffer fast exit (before
any counter is touched), `totalPackets`, the block loop, then the
trailing-bytes accounting.  Besides the stats the model also returns the
list of accepted block lengths, so the byte accounting can be stated. -/
def handlePacket (lookup : Nat → Option CategoryModel) (data : List Nat)
    (stats : AsterixStats) : AsterixStats × List Nat :=
  if data.length = 0 then (stats, [])
  else
    let stats1 := { stats with totalPackets := stats.totalPackets + 1 }
    let r := handleBlocksAux lookup data.length data stats1
    let stats2 :=
      if r.2.1.length ≠ 0 then
        { r.2.2 with
          trailingBytesCount := r.2.2.trailingBytesCount + r.2.1.length }
      else r.2.2
    (stats2, r.1)

/-! ### Counter-preservation lemmas -/

/-- The item loop never touches `protocolViolations` or
`trailingBytesCount`. -/
lemma processItemBits_preserve (cat : CategoryModel) (frnBase : Nat) :
    ∀ fuel itemBits s,
      (processItemBits cat frnBase fuel itemBits s).stats.protocolViolations =
          s.stats.protocolViolations ∧
        (processItemBits cat frnBase fuel itemBits s).stats.trailingBytesCount =
          s.stats.trailingBytesCount := by
  intro fuel
  induction fuel with
  | zero => intro itemBits s; exact ⟨rfl, rfl⟩
  | succ n ih =>
    intro itemBits s
    simp only [processItemBits]
    split
    · exact ⟨rfl, rfl⟩
    · rcases hx : cat.itemLookup (frnBase + (7 - highBitIdx itemBits) - 1) with _ | handler
      · simp [hx]
      · simp only [hx]
        split
        · exact ⟨rfl, rfl⟩
        · exact ih _ _

/-- The FSPEC walk never touches `protocolViolations` or
`trailingBytesCount`. -/
lemma walkFspec_preserve (cat : CategoryModel) (payloadLen : Nat) :
    ∀ fspec frnBase s,
      (walkFspec cat payloadLen fspec frnBase s).2.stats.protocolViolations =
          s.stats.protocolViolations ∧
        (walkFspec cat payloadLen fspec frnBase s).2.stats.trailingBytesCount =
          s.stats.trailingBytesCount := by
  intro fspec
  induction fspec with
  | nil => intro frnBase s; exact ⟨rfl, rfl⟩
  | cons b rest ih =>
    intro frnBase s
    simp only [walkFspec]
    have hp := processItemBits_preserve cat frnBase 8 (b &&& 0xFE) s
    split
    · exact hp
    · split
      · exact hp
      · have hr := ih (frnBase + 7) (processItemBits cat frnBase 8 (b &&& 0xFE) s)
        exact ⟨hr.1.trans hp.1, hr.2.trans hp.2⟩

/-- `_processDataRecordInternal` never touches `trailingBytesCount`. -/
lemma processDataRecordInternal_trailing (cat : CategoryModel)
    (fspec payload : List Nat) (stats : AsterixStats) :
    (processDataRecordInternal cat fspec payload stats).stats.trailingBytesCount =
      stats.trailingBytesCount := by
  simp only [processDataRecordInternal]
  split
  · rfl
  · split
    · rfl
    · exact (walkFspec_preserve cat payload.length fspec 1 _).2

/-- `dispatchRecord` never touches `trailingBytesCount`. -/
lemma dispatchRecord_trailing (cat : CategoryModel) (recordView : List Nat)
    (stats : AsterixStats) :
    (dispatchRecord cat recordView stats).2.trailingBytesCount =
      stats.trailingBytesCount := by
  simp only [dispatchRecord]
  rcases hs : fspecScanAux recordView MAX_FSPEC_SIZE 0 0 0 with _ | t
  · rfl
  · rcases t with ⟨fs, li, lv⟩
    simp only []
    split
    · rfl
    · split
      · rfl
      · have := processDataRecordInternal_trailing cat (recordView.take fs)
          (recordView.drop fs) stats
        split
        · exact this
        · exact this

/-- The record loop never touches `trailingBytesCount`. -/
lemma recordLoop_trailing (cat : CategoryModel) (block : List Nat) (length : Nat) :
    ∀ fuel offset stats,
      (recordLoop cat block length fuel offset stats).trailingBytesCount =
        stats.trailingBytesCount := by
  intro fuel
  induction fuel with
  | zero => intro offset stats; rfl
  | succ n ih =>
    intro offset stats
    simp only [recordLoop]
    split
    · rfl
    · have hd := dispatchRecord_trailing cat
        ((block.drop offset).take (length - offset)) stats
      split
      · exact (ih _ _).trans hd
      · exact hd

/-- `processDataBlock` never touches `trailingBytesCount`, and its
returned length never exceeds the buffer. -/
lemma processDataBlock_spec (lookup : Nat → Option CategoryModel)
    (block : List Nat) (stats : AsterixStats) :
    (processDataBlock lookup block stats).2.trailingBytesCount =
        stats.trailingBytesCount ∧
      (processDataBlock lookup block stats).1 ≤ block.length := by
  simp only [processDataBlock]
  split
  · exact ⟨rfl, Nat.zero_le _⟩
  · split
    · exact ⟨rfl, Nat.zero_le _⟩
    · rcases hc : lookup (block.getD 0 0) with _ | cat
      · simp only [hc]
        exact ⟨trivial, by omega⟩
      · simp only [hc]
        exact ⟨recordLoop_trailing cat block _ _ _ _, by omega⟩

/-- Accounting invariant of the block loop: the accepted block lengths
plus the unconsumed suffix cover the whole buffer, and the loop itself
leaves `trailingBytesCount` alone. -/
lemma handleBlocksAux_acct (lookup : Nat → Option CategoryModel) :
    ∀ fuel buffer stats,
      (handleBlocksAux lookup fuel buffer stats).1.sum +
          (handleBlocksAux lookup fuel buffer stats).2.1.length = buffer.length ∧
        (handleBlocksAux lookup fuel buffer stats).2.2.trailingBytesCount =
          stats.trailingBytesCount := by
  intro fuel
  induction fuel with
  | zero => intro buffer stats; exact ⟨by simp [handleBlocksAux], rfl⟩
  | succ n ih =>
    intro buffer stats
    simp only [handleBlocksAux]
    split
    · exact ⟨by simp, rfl⟩
    · have hp := processDataBlock_spec lookup buffer stats
      split
      · have hrec := ih (buffer.drop (processDataBlock lookup buffer stats).1)
          (processDataBlock lookup buffer stats).2
        constructor
        · simp only [List.sum_cons]
          have hlen : (buffer.drop (processDataBlock lookup buffer stats).1).length =
              buffer.length - (processDataBlock lookup buffer stats).1 := by
            simp
          omega
        · exact hrec.2.trans hp.1
      · exact ⟨by simp, hp.1⟩

/-- Projection helpers for structure-update literals. -/
lemma trailing_update_tp (s : AsterixStats) (n : Nat) :
    ({ s with totalPackets := n } : AsterixStats).trailingBytesCount =
      s.trailingBytesCount := rfl

lemma trailing_update_tb (s : AsterixStats) (n : Nat) :
    ({ s with trailingBytesCount := n } : AsterixStats).trailingBytesCount = n := rfl

/-- C3.  For every buffer, the declared lengths of the accepted blocks
plus the bytes added to `trailingBytesCount` account for the whole
buffer once `handlePacket` returns. -/
theorem handlePacket_byte_accounting (lookup : Nat → Option CategoryModel)
    (data : List Nat) (stats : AsterixStats) :
    (handlePacket lookup data stats).2.sum +
        (handlePacket lookup data stats).1.trailingBytesCount =
      data.length + stats.trailingBytesCount := by
  simp only [handlePacket]
  split
  · simp only [List.sum_nil]
    omega
  · have h := handleBlocksAux_acct lookup data.length data
      { stats with totalPackets := stats.totalPackets + 1 }
    rw [trailing_update_tp] at h
    split
    · dsimp only
      omega
    · dsimp only
      omega

/-- C4 counterexample.  On the spec's S4 input `01 00 02 80 00 00` the
six unconsumed bytes are added to `trailingBytesCount`; it does not stay
unchanged as the claim states. -/
theorem malformed_block_trailing_changes :
    (handlePacket (fun _ => none) [0x01, 0x00, 0x02, 0x80, 0x00, 0x00]
        {}).1.trailingBytesCount ≠
      ({} : AsterixStats).trailingBytesCount := by
  decide

/-- C4 amended.  On input `01 00 02 80 00 00` (declared block length
2 < HEADER_SIZE): `malformedBlocks` is incremented by exactly 1, no
block is consumed and the remainder is discarded without
resynchronisation, and the six remaining bytes are added to
`trailingBytesCount`. -/
theorem malformed_block_behaviour (lookup : Nat → Option CategoryModel)
    (stats : AsterixStats) :
    handlePacket lookup [0x01, 0x00, 0x02, 0x80, 0x00, 0x00] stats =
      ({ stats with
          totalPackets := stats.totalPackets + 1,
          malformedBlocks := stats.malformedBlocks + 1,
          trailingBytesCount := stats.trailingBytesCount + 6 }, []) := by
  rfl

/-- C6 counterexample.  On the empty buffer `totalPackets` is not
incremented: the fast exit fires before the counter update. -/
theorem empty_packet_totalPackets_unchanged :
    (handlePacket (fun _ => none) [] {}).1.totalPackets ≠
      ({} : AsterixStats).totalPackets + 1 := by
  decide

/-- C6 amended.  `handlePacket` on an empty buffer returns immediately
with no counter changed at all — including `totalPackets`. -/
theorem empty_packet_no_side_effect (lookup : Nat → Option CategoryModel)
    (stats : AsterixStats) :
    handlePacket lookup [] stats = (stats, []) := by
  rfl

/-! ### FSPEC conformance check (claim about protocolViolations) -/

/-- C7.  `_processDataRecordInternal` returns 0 with `protocolViolations`
incremented exactly when the received FSPEC is shorter than
`mandatoryFspecSize` or some mandatory bit is absent from it; in that
case the check fires before any item handler decodes, so nothing is
decoded, the payload is untouched and only `protocolViolations`
changes. -/
theorem processRecord_protocolViolations (cat : CategoryModel)
    (fspec payload : List Nat) (stats : AsterixStats) :
    (((processDataRecordInternal cat fspec payload stats).consumed = 0 ∧
        (processDataRecordInternal cat fspec payload
            stats).stats.protocolViolations = stats.protocolViolations + 1) ↔
      (fspec.length < cat.mandatoryFspecSize ∨ mandViolation cat fspec = true)) ∧
    ((fspec.length < cat.mandatoryFspecSize ∨ mandViolation cat fspec = true) →
      processDataRecordInternal cat fspec payload stats =
        ⟨0, { stats with protocolViolations := stats.protocolViolations + 1 },
          payload, []⟩) := by
  by_cases h1 : fspec.length < cat.mandatoryFspecSize
  · refine ⟨⟨fun _ => Or.inl h1, fun _ => ?_⟩, fun _ => ?_⟩
    · simp only [processDataRecordInternal, if_pos h1]
      exact ⟨trivial, trivial⟩
    · simp only [processDataRecordInternal, if_pos h1]
  · by_cases h2 : mandViolation cat fspec = true
    · refine ⟨⟨fun _ => Or.inr h2, fun _ => ?_⟩, fun _ => ?_⟩
      · simp only [processDataRecordInternal, if_neg h1, if_pos h2]
        exact ⟨trivial, trivial⟩
      · simp only [processDataRecordInternal, if_neg h1, if_pos h2]
    · constructor
      · constructor
        · rintro ⟨hc, hpv⟩
          exfalso
          have hw := (walkFspec_preserve cat payload.length fspec 1
            ⟨true, payload, stats, []⟩).1
          simp only [processDataRecordInternal, if_neg h1, if_neg h2] at hpv
          dsimp only at hpv hw
          omega
        · rintro (h | h)
          · exact absurd h h1
          · exact absurd h h2
      · rintro (h | h)
        · exact absurd h h1
        · exact absurd h h2

/-- A small concrete CAT-001-like handler table used by the witnesses:
FRN 1 a mandatory fixed 2-byte item, nothing else registered. -/
def catW : CategoryModel :=
  { itemLookup := fun idx => if idx = 0 then some ⟨getSizeFixed 2, true⟩ else none
    mandatoryFspec := 0x80 :: List.replicate 19 0
    mandatoryFspecSize := 1 }

/-- Witness for C7: an FSPEC `0x40` lacking the mandatory FRN-1 bit is
rejected with exactly one `protocolViolations` increment. -/
theorem processRecord_protocolViolations_witness :
    (processDataRecordInternal catW [0x40] [] {}).consumed = 0 ∧
    (processDataRecordInternal catW [0x40] [] {}).stats.protocolViolations =
      ({} : AsterixStats).protocolViolations + 1 :=
  (processRecord_protocolViolations catW [0x40] [] {}).1.mpr (Or.inr (by decide))

/-! ### Byte accounting of one record (FSPEC walk) -/

/-- Total size of the decoded item chunks. -/
def decodedBytes (l : List (Nat × List Nat)) : Nat :=
  (l.map (fun d => d.2.length)).sum

/-- The item loop keeps `remaining.length + decodedBytes decoded`
constant: every decoded chunk is cut off the front of `remaining`. -/
lemma processItemBits_acct (cat : CategoryModel) (frnBase : Nat) :
    ∀ fuel itemBits s,
      (processItemBits cat frnBase fuel itemBits s).remaining.length +
          decodedBytes (processItemBits cat frnBase fuel itemBits s).decoded =
        s.remaining.length + decodedBytes s.decoded := by
  intro fuel
  induction fuel with
  | zero => intro itemBits s; rfl
  | succ n ih =>
    intro itemBits s
    simp only [processItemBits]
    split
    · rfl
    · split
      · rfl
      · rename_i handler hx
        split
        · rfl
        · rename_i hsz
          have hle : handler.getSize s.remaining ≤ s.remaining.length := by
            omega
          have := ih (itemBits % 2 ^ highBitIdx itemBits)
            { ok := s.ok
              remaining := s.remaining.drop (handler.getSize s.remaining)
              stats := s.stats
              decoded := s.decoded ++
                [(frnBase + (7 - highBitIdx itemBits),
                  s.remaining.take (handler.getSize s.remaining))] }
          dsimp only at this
          rw [this]
          simp only [decodedBytes, List.map_append, List.sum_append,
            List.length_drop, List.map_cons, List.map_nil, List.sum_cons,
            List.sum_nil, List.length_take]
          have : min (handler.getSize s.remaining) s.remaining.length =
              handler.getSize s.remaining := by omega
          rw [this]
          omega

/-- The FSPEC walk keeps `remaining.length + decodedBytes decoded`
constant. -/
lemma walkFspec_acct (cat : CategoryModel) (payloadLen : Nat) :
    ∀ fspec frnBase s,
      (walkFspec cat payloadLen fspec frnBase s).2.remaining.length +
          decodedBytes (walkFspec cat payloadLen fspec frnBase s).2.decoded =
        s.remaining.length + decodedBytes s.decoded := by
  intro fspec
  induction fspec with
  | nil => intro frnBase s; rfl
  | cons b rest ih =>
    intro frnBase s
    simp only [walkFspec]
    have hp := processItemBits_acct cat frnBase 8 (b &&& 0xFE) s
    split
    · exact hp
    · split
      · exact hp
      · exact (ih (frnBase + 7) _).trans hp

/-- On success the walk's returned count is the number of payload bytes
it consumed. -/
lemma walkFspec_consumed (cat : CategoryModel) (payloadLen : Nat) :
    ∀ fspec frnBase s,
      (walkFspec cat payloadLen fspec frnBase s).1 ≠ 0 →
        (walkFspec cat payloadLen fspec frnBase s).1 =
          payloadLen - (walkFspec cat payloadLen fspec frnBase s).2.remaining.length := by
  intro fspec
  induction fspec with
  | nil => intro frnBase s h; exact absurd rfl h
  | cons b rest ih =>
    intro frnBase s
    simp only [walkFspec]
    split
    · intro h; exact absurd rfl h
    · split
      · intro _; rfl
      · exact ih (frnBase + 7) _

/-- C8.  For every record on which the FSPEC walk succeeds, the returned
count equals `payload.length - remaining.length`, which equals the sum of
the decoded item sizes; and the byte count reported by `dispatchRecord`
is the FSPEC length plus that count. -/
theorem record_consumed_accounting :
    (∀ (cat : CategoryModel) (fspec payload : List Nat) (stats : AsterixStats),
      (processDataRecordInternal cat fspec payload stats).consumed > 0 →
        (processDataRecordInternal cat fspec payload stats).consumed =
            payload.length -
              (processDataRecordInternal cat fspec payload
                stats).remaining.length ∧
          (processDataRecordInternal cat fspec payload stats).consumed =
            decodedBytes (processDataRecordInternal cat fspec payload
              stats).decoded) ∧
    (∀ (cat : CategoryModel) (recordView : List Nat) (stats : AsterixStats),
      (dispatchRecord cat recordView stats).1 > 0 →
        ∃ t : Nat × Nat × Nat,
          fspecScanAux recordView MAX_FSPEC_SIZE 0 0 0 = some t ∧
            (processDataRecordInternal cat (recordView.take t.1)
                (recordView.drop t.1) stats).consumed > 0 ∧
            (dispatchRecord cat recordView stats).1 =
              t.1 + (processDataRecordInternal cat (recordView.take t.1)
                  (recordView.drop t.1) stats).consumed) := by
  constructor
  · intro cat fspec payload stats
    simp only [processDataRecordInternal]
    split
    · intro h; exact absurd rfl (Nat.ne_of_gt h)
    · split
      · intro h; exact absurd rfl (Nat.ne_of_gt h)
      · intro h
        dsimp only at h ⊢
        have hne : (walkFspec cat payload.length fspec 1
            ⟨true, payload, stats, []⟩).1 ≠ 0 := by omega
        have hc := walkFspec_consumed cat payload.length fspec 1
          ⟨true, payload, stats, []⟩ hne
        have ha := walkFspec_acct cat payload.length fspec 1
          ⟨true, payload, stats, []⟩
        dsimp only at ha
        simp only [decodedBytes, List.map_nil, List.sum_nil] at ha
        refine ⟨hc, ?_⟩
        rw [hc]
        simp only [decodedBytes] at ha ⊢
        omega
  · intro cat recordView stats
    intro h
    rcases hsc : fspecScanAux recordView MAX_FSPEC_SIZE 0 0 0 with _ | t
    · simp only [dispatchRecord, hsc] at h
      exact absurd h (by simp)
    · rcases t with ⟨fs, li, lv⟩
      simp only [dispatchRecord, hsc] at h
      by_cases hb : lv > 0 ∧ (li > 18 ∨ (li = 18 ∧ lv &&& 0x3E ≠ 0))
      · rw [if_pos hb] at h
        exact absurd h (by simp)
      · rw [if_neg hb] at h
        by_cases hfs : fs > recordView.length
        · rw [if_pos hfs] at h
          exact absurd h (by simp)
        · rw [if_neg hfs] at h
          by_cases hcons : (processDataRecordInternal cat (recordView.take fs)
              (recordView.drop fs) stats).consumed > 0
          · refine ⟨(fs, li, lv), rfl, hcons, ?_⟩
            simp only [dispatchRecord, hsc]
            rw [if_neg hb, if_neg hfs, if_pos hcons]
          · rw [if_neg hcons] at h
            exact absurd h (by simp)

/-- Witness for C8 on the concrete table `catW`: record `80 01 02`
(FSPEC `0x80`, payload `01 02`) decodes one 2-byte item. -/
theorem record_consumed_accounting_witness :
    ((processDataRecordInternal catW [0x80] [0x01, 0x02] {}).consumed > 0 ∧
      ((processDataRecordInternal catW [0x80] [0x01, 0x02] {}).consumed =
          [0x01, 0x02].length -
            (processDataRecordInternal catW [0x80] [0x01, 0x02]
              {}).remaining.length ∧
        (processDataRecordInternal catW [0x80] [0x01, 0x02] {}).consumed =
          decodedBytes (processDataRecordInternal catW [0x80] [0x01, 0x02]
            {}).decoded)) ∧
    ((dispatchRecord catW [0x80, 0x01, 0x02] {}).1 > 0 ∧
      ∃ t : Nat × Nat × Nat,
        fspecScanAux [0x80, 0x01, 0x02] MAX_FSPEC_SIZE 0 0 0 = some t ∧
          (processDataRecordInternal catW ([0x80, 0x01, 0x02].take t.1)
              ([0x80, 0x01, 0x02].drop t.1) {}).consumed > 0 ∧
          (dispatchRecord catW [0x80, 0x01, 0x02] {}).1 =
            t.1 + (processDataRecordInternal catW ([0x80, 0x01, 0x02].take t.1)
                ([0x80, 0x01, 0x02].drop t.1) {}).consumed) :=
  ⟨⟨by decide, record_consumed_accounting.1 catW [0x80] [0x01, 0x02] {}
      (by decide)⟩,
   ⟨by decide, record_consumed_accounting.2 catW [0x80, 0x01, 0x02] {}
      (by decide)⟩⟩

/-! ### I001/020 decoder (I001_020_Handler::decode,
src/cat001/Asterix1DataItemCollection.cc lines 63-100)

The C++ decoder signals rejection by `throw uninterpretedItem()`; the
embedding returns `Except.error ()` for each `throw`. -/

/-- The target-report-descriptor fields written by I001/020. -/
structure Asterix1ReportTRD where
  ssrPsr : Nat := 0
  spi : Bool := false
  ds1ds2 : Nat := 0
deriving Repr, DecidableEq

/-- `I001_020_Handler::decode`: reserved bits 7 and 6 of octet 1 (mask
`0xC0`) must be clear; bits 5..4 are SSR/PSR, bit 2 SPI, bit 0 FX.  If
FX is set, octet 2 must have reserved bits 7, 4, 3 (mask `0x98`) clear;
bits 6..5 are DS1/DS2 and a further extension (octet-2 FX) is
rejected. -/
def I001_020_decode (report : Asterix1ReportTRD) (data : List Nat) :
    Except Unit Asterix1ReportTRD :=
  let octet1 := data.getD 0 0
  if octet1 &&& 0xC0 ≠ 0 then Except.error ()
  else
    let report := { report with ssrPsr := (octet1 &&& 0x30) >>> 4 }
    let report := if octet1 &&& 0x04 ≠ 0 then { report with spi := true }
      else report
    if octet1 &&& 0x01 ≠ 0 then
      let octet2 := data.getD 1 0
      if octet2 &&& 0x98 ≠ 0 then Except.error ()
      else
        let report := { report with ds1ds2 := (octet2 &&& 0x60) >>> 5 }
        if octet2 &&& 0x01 ≠ 0 then Except.error ()
        else Except.ok report
    else Except.ok report

/-- C5 evaluation at the failing input.  A record whose I001/020 first
octet has reserved bit 7 set makes the decoder throw
(`Except.error` here).  No caller between `decode` and
`AsterixPacketHandler::handlePacket` contains a catch handler, so on the
real code this exception escapes `handlePacket` with no counter
incremented, contradicting the claim that the record is rejected
internally. -/
theorem i020_reserved_bit_throws :
    I001_020_decode {} [0x80] = Except.error () ∧
    I001_020_decode {} [0x40] = Except.error () := by
  constructor <;> rfl

/-! ### Size disciplines of the two handler shapes (claim C9) -/

/-- `extScan` stops at the first reachable FX-clear byte. -/
lemma extScan_found (data : List Nat) (i : Nat) (hi : 0 < i) :
    ∀ fuel pos j, j < data.length → data.getD j 0 &&& 0x01 = 0 →
      (∀ m, pos + m * i < j → data.getD (pos + m * i) 0 &&& 0x01 ≠ 0) →
      (∃ m, j = pos + m * i) →
      j < pos + fuel →
      extScan data i fuel pos = j := by
  intro fuel
  induction fuel with
  | zero =>
    intro pos j _ _ _ hex hbound
    obtain ⟨m, hm⟩ := hex
    have : pos ≤ j := by
      rw [hm]; exact Nat.le_add_right _ _
    omega
  | succ n ih =>
    intro pos j hj hclear hset hex hbound
    obtain ⟨m, hm⟩ := hex
    simp only [extScan]
    rcases Nat.eq_zero_or_pos m with hm0 | hmpos
    · subst hm0
      simp only [Nat.zero_mul, Nat.add_zero] at hm
      subst hm
      rw [if_pos hj, if_pos hclear]
    · have hposltj : pos < j := by
        have h1 : 1 * i ≤ m * i := Nat.mul_le_mul_right i hmpos
        rw [hm]
        omega
      have hfx : data.getD pos 0 &&& 0x01 ≠ 0 := by
        have := hset 0 (by simpa using hposltj)
        simpa using this
      have hposlt : pos < data.length := lt_trans hposltj hj
      rw [if_pos hposlt, if_neg hfx]
      apply ih (pos + i) j hj hclear
      · intro m2 hlt2
        have hidx : pos + (m2 + 1) * i = pos + i + m2 * i := by
          rw [Nat.succ_mul]; omega
        have := hset (m2 + 1) (by rw [hidx]; exact hlt2)
        rw [hidx] at this
        exact this
      · obtain ⟨m1, hm1⟩ : ∃ m1, m = m1 + 1 := ⟨m - 1, by omega⟩
        refine ⟨m1, ?_⟩
        rw [hm, hm1, Nat.succ_mul]
        omega
      · omega

/-- `extScan` runs past the data when every reachable byte keeps FX
set. -/
lemma extScan_runout (data : List Nat) (i : Nat) (hi : 0 < i) :
    ∀ fuel pos, data.length ≤ pos + fuel →
      (∀ m, pos + m * i < data.length →
        data.getD (pos + m * i) 0 &&& 0x01 ≠ 0) →
      data.length ≤ extScan data i fuel pos := by
  intro fuel
  induction fuel with
  | zero =>
    intro pos hbound _
    simpa [extScan] using hbound
  | succ n ih =>
    intro pos hbound hset
    simp only [extScan]
    by_cases hpos : pos < data.length
    · have hfx : data.getD pos 0 &&& 0x01 ≠ 0 := by
        have := hset 0 (by simpa using hpos)
        simpa using this
      rw [if_pos hpos, if_neg hfx]
      apply ih (pos + i)
      · omega
      · intro m2 hlt2
        have hidx : pos + (m2 + 1) * i = pos + i + m2 * i := by
          rw [Nat.succ_mul]; omega
        have := hset (m2 + 1) (by rw [hidx]; exact hlt2)
        rw [hidx] at this
        exact this
    · rw [if_neg hpos]
      omega

/-- C9.  A fixed-length handler constructed with `n` reports size `n`
regardless of the data; an extended-length handler constructed with
`(k, i)` (with the source's positive parameters) reports `j + 1` for the
first index `j` reached from `k - 1` in steps of `i` whose byte has FX
clear, and reports 0 when the data runs out before such a byte. -/
theorem getSize_disciplines :
    (∀ (n : Nat) (data : List Nat), getSizeFixed n data = n) ∧
    (∀ (k i : Nat) (data : List Nat), 0 < k → 0 < i →
      (∀ j, j < data.length → data.getD j 0 &&& 0x01 = 0 →
        (∀ m, (k - 1) + m * i < j →
          data.getD ((k - 1) + m * i) 0 &&& 0x01 ≠ 0) →
        (∃ m, j = (k - 1) + m * i) →
        getSizeExtended k i data = j + 1) ∧
      ((∀ m, (k - 1) + m * i < data.length →
          data.getD ((k - 1) + m * i) 0 &&& 0x01 ≠ 0) →
        getSizeExtended k i data = 0)) := by
  constructor
  · intro n data
    rfl
  · intro k i data _ hi
    constructor
    · intro j hj hclear hset hex
      have hs := extScan_found data i hi (data.length + 1) (k - 1) j hj hclear
        hset hex (by omega)
      simp only [getSizeExtended, hs]
      rw [if_pos (by omega)]
    · intro hset
      have hs := extScan_runout data i hi (data.length + 1) (k - 1)
        (by omega) hset
      simp only [getSizeExtended]
      rw [if_neg (by omega)]

/-- Witness for C9: the extended handler `(k, i) = (1, 1)` (the shape
used by I001/020) on data `01 00` finds the FX-clear byte at index 1 and
reports size 2; on data `01 03` it runs out and reports 0; a fixed
handler of length 4 reports 4. -/
theorem getSize_disciplines_witness :
    getSizeFixed 4 [0x00, 0x80, 0x40, 0x00] = 4 ∧
    (0 < 1 ∧ getSizeExtended 1 1 [0x01, 0x00] = 2) ∧
    getSizeExtended 1 1 [0x01, 0x03] = 0 := by
  refine ⟨getSize_disciplines.1 4 [0x00, 0x80, 0x40, 0x00],
    ⟨by decide, (getSize_disciplines.2 1 1 [0x01, 0x00] (by decide)
      (by decide)).1 1 (by decide) (by decide) ?_ ⟨1, by decide⟩⟩,
    (getSize_disciplines.2 1 1 [0x01, 0x03] (by decide) (by decide)).2 ?_⟩
  · intro m hm
    have hm0 : m = 0 := by omega
    subst hm0
    decide
  · intro m hm
    rcases m with _ | m
    · intro hc
      revert hc
      decide
    · intro hc
      simp only [List.length_cons, List.length_nil] at hm
      have hm0 : m = 0 := by omega
      subst hm0
      revert hc
      decide

/-! ### Handler registration (AsterixCategoryHandler::addHandler,
include/ReactorAsterix/core/AsterixCategoryHandler.h lines 72-103) -/

def MAX_FRNS : Nat := 128

/-- `addHandler`: reject `frn = 0` or `frn > MAX_FRNS`; when the handler
is mandatory, or bit `7 - ((frn-1) % 7)` into mask byte `(frn-1)/7` and
raise `mandatoryFspecSize` to at least `byteIdx + 1`; finally replace
the lookup slot at `frn - 1`.  (The source also moves ownership between
the pool and the slot and links the stats object; neither affects the
mask or the lookup result.) -/
def addHandler (s : CategoryModel) (h : ItemHandler) (frn : Nat) :
    CategoryModel :=
  if frn = 0 ∨ frn > MAX_FRNS then s
  else
    let byteIdx := (frn - 1) / 7
    let bitIdx := 7 - ((frn - 1) % 7)
    let s1 := if h.mandatory then
        { s with
          mandatoryFspec := s.mandatoryFspec.set byteIdx
            (s.mandatoryFspec.getD byteIdx 0 ||| (1 <<< bitIdx))
          mandatoryFspecSize := max s.mandatoryFspecSize (byteIdx + 1) }
      else s
    { s1 with
      itemLookup := fun idx => if idx = frn - 1 then some h else s1.itemLookup idx }

lemma getD_set_self (l : List Nat) (i v : Nat) (h : i < l.length) :
    (l.set i v).getD i 0 = v := by
  rw [List.getD_eq_getElem?_getD, List.getElem?_set_self h]
  rfl

lemma getD_set_other (l : List Nat) (i j v : Nat) (h : i ≠ j) :
    (l.set i v).getD j 0 = l.getD j 0 := by
  rw [List.getD_eq_getElem?_getD, List.getElem?_set_ne h,
    ← List.getD_eq_getElem?_getD]

/-- One `addHandler` call never clears a mask bit, never shrinks
`mandatoryFspecSize`, and never changes the mask length. -/
lemma addHandler_monotone (s : CategoryModel) (h : ItemHandler) (frn : Nat)
    (byteIdx bit : Nat)
    (hset : Nat.testBit (s.mandatoryFspec.getD byteIdx 0) bit = true) :
    Nat.testBit ((addHandler s h frn).mandatoryFspec.getD byteIdx 0) bit =
        true ∧
      s.mandatoryFspecSize ≤ (addHandler s h frn).mandatoryFspecSize ∧
      (addHandler s h frn).mandatoryFspec.length = s.mandatoryFspec.length := by
  simp only [addHandler]
  split
  · exact ⟨hset, Nat.le_refl _, rfl⟩
  · split
    · refine ⟨?_, by dsimp only; omega, by simp⟩
      dsimp only
      by_cases hb : (frn - 1) / 7 = byteIdx
      · subst hb
        by_cases hlen : (frn - 1) / 7 < s.mandatoryFspec.length
        · rw [getD_set_self _ _ _ hlen, Nat.testBit_or, hset]
          simp
        · rw [List.set_eq_of_length_le (by omega)]
          exact hset
      · rw [getD_set_other _ _ _ _ hb]
        exact hset
    · exact ⟨hset, Nat.le_refl _, rfl⟩

/-- C10.  Once a mandatory handler is registered at a valid FRN `f`, the
corresponding mandatory-mask bit stays set and `mandatoryFspecSize`
never decreases under any later sequence of `addHandler` calls — in
particular when the slot at `f` is later replaced by a non-mandatory
handler, records lacking item `f` are still rejected. -/
theorem mandatory_mask_monotone (s : CategoryModel) (h : ItemHandler)
    (f : Nat) (hm : h.mandatory = true) (h1 : 1 ≤ f) (h2 : f ≤ 128)
    (hlen : s.mandatoryFspec.length = 20)
    (calls : List (ItemHandler × Nat)) :
    Nat.testBit
        ((calls.foldl (fun st c => addHandler st c.1 c.2)
            (addHandler s h f)).mandatoryFspec.getD ((f - 1) / 7) 0)
        (7 - ((f - 1) % 7)) = true ∧
      (addHandler s h f).mandatoryFspecSize ≤
        (calls.foldl (fun st c => addHandler st c.1 c.2)
          (addHandler s h f)).mandatoryFspecSize := by
  have hbase : Nat.testBit
      ((addHandler s h f).mandatoryFspec.getD ((f - 1) / 7) 0)
      (7 - ((f - 1) % 7)) = true := by
    simp only [addHandler, MAX_FRNS]
    rw [if_neg (by omega), if_pos hm]
    dsimp only
    have hidx : (f - 1) / 7 < s.mandatoryFspec.length := by
      rw [hlen]
      omega
    rw [getD_set_self _ _ _ hidx, Nat.one_shiftLeft, Nat.testBit_or,
      Nat.testBit_two_pow_self]
    simp
  have main : ∀ (calls : List (ItemHandler × Nat)) (st : CategoryModel),
      Nat.testBit (st.mandatoryFspec.getD ((f - 1) / 7) 0)
          (7 - ((f - 1) % 7)) = true →
        Nat.testBit
            ((calls.foldl (fun st c => addHandler st c.1 c.2)
                st).mandatoryFspec.getD ((f - 1) / 7) 0)
            (7 - ((f - 1) % 7)) = true ∧
          st.mandatoryFspecSize ≤
            (calls.foldl (fun st c => addHandler st c.1 c.2)
              st).mandatoryFspecSize := by
    intro calls
    induction calls with
    | nil => intro st hst; exact ⟨hst, Nat.le_refl _⟩
    | cons c rest ih =>
      intro st hst
      have hstep := addHandler_monotone st c.1 c.2 ((f - 1) / 7)
        (7 - ((f - 1) % 7)) hst
      have := ih (addHandler st c.1 c.2) hstep.1
      exact ⟨this.1, Nat.le_trans hstep.2.1 this.2⟩
  exact main calls (addHandler s h f) hbase

/-- Witness for C10: register a mandatory 2-byte handler at FRN 2 on an
empty table, then replace the FRN-2 slot with a non-mandatory handler;
bit 6 of mask byte 0 is still set and the mask size has not shrunk. -/
theorem mandatory_mask_monotone_witness :
    Nat.testBit
        (([(⟨getSizeFixed 3, false⟩, 2)].foldl
            (fun st c => addHandler st c.1 c.2)
            (addHandler
              ⟨fun _ => none, List.replicate 20 0, 0⟩
              ⟨getSizeFixed 2, true⟩ 2)).mandatoryFspec.getD ((2 - 1) / 7) 0)
        (7 - ((2 - 1) % 7)) = true ∧
      (addHandler ⟨fun _ => none, List.replicate 20 0, 0⟩
          ⟨getSizeFixed 2, true⟩ 2).mandatoryFspecSize ≤
        ([(⟨getSizeFixed 3, false⟩, 2)].foldl
            (fun st c => addHandler st c.1 c.2)
            (addHandler ⟨fun _ => none, List.replicate 20 0, 0⟩
              ⟨getSizeFixed 2, true⟩ 2)).mandatoryFspecSize :=
  mandatory_mask_monotone ⟨fun _ => none, List.replicate 20 0, 0⟩
    ⟨getSizeFixed 2, true⟩ 2 rfl (by decide) (by decide) (by decide)
    [(⟨getSizeFixed 3, false⟩, 2)]

end ReactorAsterix
